import Mathlib

/-!
Shallow embedding of the debt-ledger core of the ExpenseSplittingTracking
backend (`backend/app.py` and `backend/crud.py`).

Monetary amounts are Python floats in the source; they are modelled here as
exact rationals (ℚ).  The `balances` table is modelled as a list of rows in
rowid (insertion) order, so `fetchone` on a SELECT is `List.find?`, and
`UPDATE/DELETE ... WHERE balance_id = ?` on the fetched row acts on the first
matching row.
-/

/-- A row of the `balances` table: within `group_id`, `borrower` owes `lender`
the (signed, in the model) `amount`. -/
structure Balance where
  group_id : Nat
  lender : Nat
  borrower : Nat
  amount : ℚ
deriving DecidableEq, Repr

/-- The SQL key used by the SELECTs of `consolidate_balances` in `app.py`:
`WHERE group_id = ? AND lender = ? AND borrower = ?`. -/
def balKey (g l b : Nat) (x : Balance) : Bool :=
  x.group_id == g && x.lender == l && x.borrower == b

/-- `SELECT ... WHERE group_id = ? AND lender = ? AND borrower = ?` followed by
`fetchone()`: the first matching row in insertion order. -/
def findBal (bs : List Balance) (g l b : Nat) : Option Balance :=
  bs.find? (balKey g l b)

/-- `UPDATE balances SET amount = ? WHERE balance_id = ?`, where `balance_id`
is the row previously fetched by `fetchone`: replace the amount of the first
matching row. -/
def updateFirst (p : Balance → Bool) (v : ℚ) : List Balance → List Balance
  | [] => []
  | x :: xs => if p x then { x with amount := v } :: xs else x :: updateFirst p v xs

/-- `consolidate_balances(conn, group_id, lender_id, borrower_id, amount)` from
`backend/app.py` (lines 334-395).  Two SELECTs look the pair up in both
directions; an existing same-direction row is updated in place or deleted when
the new amount is `<= 0`; an opposite-direction row is reduced, or deleted and
(for a strictly positive residue) replaced by a row in the requested
direction; with no row in either direction the row is inserted unconditionally
with the given `amount`. -/
def consolidate_balances (bs : List Balance) (group_id lender_id borrower_id : Nat)
    (amount : ℚ) : List Balance :=
  match findBal bs group_id lender_id borrower_id with
  | some e =>
    let new_amount := e.amount + amount
    if new_amount ≤ 0 then
      List.eraseP (balKey group_id lender_id borrower_id) bs
    else
      updateFirst (balKey group_id lender_id borrower_id) new_amount bs
  | none =>
    match findBal bs group_id borrower_id lender_id with
    | some e =>
      if amount ≥ e.amount then
        let new_amount := amount - e.amount
        let bs1 := List.eraseP (balKey group_id borrower_id lender_id) bs
        if new_amount > 0 then
          bs1 ++ [⟨group_id, lender_id, borrower_id, new_amount⟩]
        else bs1
      else
        updateFirst (balKey group_id borrower_id lender_id) (e.amount - amount) bs
    | none => bs ++ [⟨group_id, lender_id, borrower_id, amount⟩]

/-- Two balance rows concern the same group and the same unordered member
pair. -/
def sameKey (x y : Balance) : Prop :=
  x.group_id = y.group_id ∧
    ((x.lender = y.lender ∧ x.borrower = y.borrower) ∨
     (x.lender = y.borrower ∧ x.borrower = y.lender))

instance (x y : Balance) : Decidable (sameKey x y) := by
  unfold sameKey
  infer_instance

/-- The documented store invariant: every stored amount is strictly positive,
and no two rows concern the same group and unordered member pair. -/
def StoreInv (bs : List Balance) : Prop :=
  (∀ x ∈ bs, 0 < x.amount) ∧ bs.Pairwise fun x y => ¬ sameKey x y

/-- One invocation of `consolidate_balances` (group, lender, borrower, signed
amount). -/
structure Call where
  group_id : Nat
  lender : Nat
  borrower : Nat
  amount : ℚ
deriving DecidableEq, Repr

/-- Apply one consolidation call to a store. -/
def applyCall (bs : List Balance) (c : Call) : List Balance :=
  consolidate_balances bs c.group_id c.lender c.borrower c.amount

/-- Run a sequence of consolidation calls against the empty store. -/
def runCalls (cs : List Call) : List Balance :=
  cs.foldl applyCall []

/-- Every call in the sequence either carries a strictly positive amount or
finds an existing row for the pair, in either direction, in the store it runs
against. -/
def GoodSeq : List Balance → List Call → Prop
  | _, [] => True
  | bs, c :: cs =>
    (0 < c.amount ∨ (findBal bs c.group_id c.lender c.borrower).isSome = true ∨
        (findBal bs c.group_id c.borrower c.lender).isSome = true) ∧
      GoodSeq (applyCall bs c) cs

/-! ## `backend/crud.py` -/

/-- A row of the `payments` table as inserted by `crud.record_payment`. -/
structure CrudPayment where
  paid_by : Nat
  paid_to : Nat
  amount : ℚ
deriving DecidableEq, Repr

/-- The state touched by `crud.record_payment`: the `payments` and `balances`
tables. -/
structure CrudState where
  payments : List CrudPayment
  balances : List Balance
deriving DecidableEq, Repr

/-- The key of the crud-side balance queries:
`WHERE lender = ? AND borrower = ?` (note: no group filter in `crud.py`). -/
def crudKey (lender borrower : Nat) (b : Balance) : Bool :=
  b.lender == lender && b.borrower == borrower

/-- `crud.record_payment(paid_by, paid_to, amount)` from `backend/crud.py`
(lines 75-100): always insert the payment row; then, if a balance row from
`paid_to` (lender) to `paid_by` (borrower) exists, set every such row's amount
to `max(0, current - amount)` (the UPDATE has no `balance_id` filter, so it
hits all rows with that lender/borrower). -/
def crud_record_payment (st : CrudState) (paid_by paid_to : Nat) (amount : ℚ) :
    CrudState :=
  let st1 : CrudState :=
    { st with payments := st.payments ++ [⟨paid_by, paid_to, amount⟩] }
  match st1.balances.find? (crudKey paid_to paid_by) with
  | some row =>
    let new_balance := max 0 (row.amount - amount)
    { st1 with
      balances := st1.balances.map fun b =>
        if crudKey paid_to paid_by b then { b with amount := new_balance } else b }
  | none => st1

/-- Accumulate `v` into the entry for key `k` of an association list,
mirroring `defaultdict(float)` access `net[k] += v`. -/
def addTo : List (Nat × ℚ) → Nat → ℚ → List (Nat × ℚ)
  | [], k, v => [(k, v)]
  | (k1, v1) :: t, k, v =>
    if k1 = k then (k1, v1 + v) :: t else (k1, v1) :: addTo t k v

/-- `crud.get_net_balances()` from `backend/crud.py` (lines 115-134): over all
balance rows, add each row's amount to its lender's net and subtract it from
its borrower's net. -/
def get_net_balances (bs : List Balance) : List (Nat × ℚ) :=
  bs.foldl (fun net b => addTo (addTo net b.lender b.amount) b.borrower (-b.amount)) []

/-! ## `backend/app.py` payment and expense endpoints -/

/-- A row of the `payments` table as inserted by the `/api/payments`
endpoint. -/
structure AppPayment where
  paid_by : Nat
  paid_to : Nat
  amount : ℚ
  group_id : Nat
  description : String
deriving DecidableEq, Repr

/-- The store state relevant to the payment/expense endpoints of `app.py`:
active (non-deleted) membership rows as `(user_id, group_id)` pairs, plus the
`payments` and `balances` tables. -/
structure AppState where
  members : List (Nat × Nat)
  payments : List AppPayment
  balances : List Balance
deriving DecidableEq, Repr

/-- `SELECT 1 FROM members WHERE user_id = ? AND group_id = ? AND deleted_at
IS NULL`. -/
def isMember (st : AppState) (u g : Nat) : Bool :=
  st.members.contains (u, g)

/-- The spec's `PaymentError` taxonomy (§7), covering the error responses of
the `/api/payments` endpoint; `noExistingDebt` is the HTTP 400
"No debt exists ..." response and `exceedsDebt` the "Payment amount ...
exceeds existing debt ..." response. -/
inductive PaymentError where
  | invalidAmount
  | emptyDescription
  | selfPayment
  | notGroupMembers
  | noExistingDebt
  | exceedsDebt
deriving DecidableEq, Repr

/-- `record_payment` (the `/api/payments` POST handler) from `backend/app.py`
(lines 1327-1442), after authentication and request parsing: validate the
amount, description (modelled post-`strip`), distinct users and group
membership; then the read-only debt check (`SELECT amount FROM balances WHERE
group_id = ? AND lender = paid_to AND borrower = paid_by`); only when all
checks pass, insert the payment row and run
`consolidate_balances(group_id, paid_to, paid_by, -amount)`.  Returns the
error (if any) and the resulting state. -/
def app_record_payment (st : AppState) (group_id paid_by paid_to : Nat)
    (amount : ℚ) (description : String) : Option PaymentError × AppState :=
  if amount ≤ 0 then (some .invalidAmount, st)
  else if description = "" then (some .emptyDescription, st)
  else if paid_by == paid_to then (some .selfPayment, st)
  else if !(isMember st paid_by group_id && isMember st paid_to group_id) then
    (some .notGroupMembers, st)
  else
    match findBal st.balances group_id paid_to paid_by with
    | none => (some .noExistingDebt, st)
    | some row =>
      if row.amount ≤ 0 then (some .noExistingDebt, st)
      else if amount > row.amount then (some .exceedsDebt, st)
      else
        let st1 : AppState :=
          { st with payments :=
              st.payments ++ [⟨paid_by, paid_to, amount, group_id, description⟩] }
        (none,
          { st1 with balances :=
              consolidate_balances st1.balances group_id paid_to paid_by (-amount) })

/-! ## Split computation -/

/-- The split methods accepted by the `/api/expenses` endpoint. -/
inductive SplitMethod where
  | equal
  | percentage
  | exact
  | custom
deriving DecidableEq, Repr

/-- A `split_config` entry after the endpoint's conversion: type `amount`
carries cents (an integer), type `percent` a rational percentage, type `none`
(the spec's `Remainder`) no value. -/
inductive SplitKind where
  | amountCents (cents : ℤ)
  | percent (pct : ℚ)
  | remainder
deriving DecidableEq, Repr

/-- One validated `split_config` entry passed to `compute_custom_splits`. -/
structure SplitConfigEntry where
  user_id : Nat
  kind : SplitKind
deriving DecidableEq, Repr

/-- The spec's `SplitError` taxonomy (§7). -/
inductive SplitError where
  | invalidParticipant
  | negativeValue
  | overAllocated
  | noRemainderTarget
deriving DecidableEq, Repr

/-- The fixed cent amount of an entry, when it is of type `amount`. -/
def fixedVal (m : SplitConfigEntry) : Option ℤ :=
  match m.kind with
  | .amountCents c => some c
  | _ => none

/-- The percentage of an entry, when it is of type `percent`. -/
def pctVal (m : SplitConfigEntry) : Option ℚ :=
  match m.kind with
  | .percent p => some p
  | _ => none

/-- Whether an entry is of type `none` (a `Remainder` participant). -/
def isRemainder (m : SplitConfigEntry) : Bool :=
  match m.kind with
  | .remainder => true
  | _ => false

/-- The provisional integer share of a `percent` entry:
`floor(total * pct / 100)` cents. -/
def pctShare (total : ℤ) (m : SplitConfigEntry) : Option ℤ :=
  (pctVal m).map fun p => ⌊(total : ℚ) * p / 100⌋

/-- Hand the `extra` leftover cents one-by-one to the first members of the
(ascending-id) list, on top of the `base` share. -/
def distribute : List Nat → ℤ → Nat → List (Nat × ℤ)
  | [], _, _ => []
  | i :: t, base, 0 => (i, base) :: distribute t base 0
  | i :: t, base, e + 1 => (i, base + 1) :: distribute t base e

/-- Modelled from the spec: `compute_custom_splits` is defined in
`backend/splitting.py`, which `backend/app.py` imports but which is missing
from the sources.  This definition follows §4.1 of the spec: reject duplicate
ids, an empty member list, negative fixed amounts, negative or over-100
cumulative percentages; fail with `OverAllocated` when fixed (or fixed plus
floored percent) shares exceed the total; fail with `NoRemainderTarget` when a
nonzero remainder has no `Remainder` member; otherwise divide the remainder
evenly among the `Remainder` members, giving the leftover cents one-by-one in
ascending member id. -/
def compute_custom_splits (total : ℤ) (members : List SplitConfigEntry) :
    Except SplitError (List (Nat × ℤ)) :=
  if members.isEmpty then .error .invalidParticipant
  else if ¬ (members.map (·.user_id)).Nodup then .error .invalidParticipant
  else if members.any (fun m => (fixedVal m).getD 0 < 0) then .error .negativeValue
  else if members.any (fun m => (pctVal m).getD 0 < 0) then .error .negativeValue
  else if (members.filterMap pctVal).sum > 100 then .error .overAllocated
  else
    let fixed_sum : ℤ := (members.filterMap fixedVal).sum
    if total < fixed_sum then .error .overAllocated
    else
      let percent_sum : ℤ := (members.filterMap (pctShare total)).sum
      if total < fixed_sum + percent_sum then .error .overAllocated
      else
        let remaining : ℤ := total - fixed_sum - percent_sum
        let fixed_shares : List (Nat × ℤ) :=
          members.filterMap fun m => (fixedVal m).map fun v => (m.user_id, v)
        let percent_shares : List (Nat × ℤ) :=
          members.filterMap fun m => (pctShare total m).map fun v => (m.user_id, v)
        let remainder_ids : List Nat :=
          ((members.filter isRemainder).map (·.user_id)).mergeSort (· ≤ ·)
        if remainder_ids.isEmpty then
          if remaining ≠ 0 then .error .noRemainderTarget
          else .ok (fixed_shares ++ percent_shares)
        else
          let n : Nat := remainder_ids.length
          .ok (fixed_shares ++ percent_shares ++
            distribute remainder_ids (remaining / n) ((remaining % n).toNat))

/-- Python's `round` (banker's rounding, ties to even), used by the endpoint
as `int(round(amount * 100))` to convert dollars to cents. -/
def roundHalfEven (x : ℚ) : ℤ :=
  let f := ⌊x⌋
  let r := x - f
  if r < 1/2 then f
  else if 1/2 < r then f + 1
  else if 2 ∣ f then f else f + 1

/-- `add_expense` (the `/api/expenses` POST handler) from `backend/app.py`
(lines 1018-1274), after authentication, parsing and expense-row insertion
bookkeeping.  Validates amount, participants and memberships; for the custom
method computes `split_details` through `compute_custom_splits` on the cent
total (results converted back to dollars); for the other methods requires
`len(split_details) == len(participants)` and
`abs(sum(split_details.values()) - amount) <= 0.01`.  Then, in participant
order, records one split row per participant (share looked up by id,
defaulting to 0, plus a 0-amount payer row when the payer is not a
participant) and calls `consolidate_balances(group_id, paid_by, participant,
share)` for every participant other than the payer.  Returns `none` on
rejection, otherwise the effective split details, the recorded split rows,
the trace of consolidation calls, and the new state. -/
def add_expense (st : AppState) (requester group_id paid_by : Nat) (amount : ℚ)
    (participants : List Nat) (split_details : List (Nat × ℚ))
    (split_method : SplitMethod) (split_config : List SplitConfigEntry) :
    Option (List (Nat × ℚ) × List (Nat × ℚ) × List Call × AppState) :=
  if amount ≤ 0 then none
  else if participants.isEmpty then none
  else if !(isMember st requester group_id) then none
  else if !(isMember st paid_by group_id) then none
  else if !(participants.all fun p => isMember st p group_id) then none
  else
    let details? : Option (List (Nat × ℚ)) :=
      match split_method with
      | .custom =>
        match compute_custom_splits (roundHalfEven (amount * 100)) split_config with
        | .error _ => none
        | .ok rs => some (rs.map fun r => (r.1, (r.2 : ℚ) / 100))
      | _ =>
        if split_details.length = participants.length ∧
            |(split_details.map Prod.snd).sum - amount| ≤ 1/100 then
          some split_details
        else none
    match details? with
    | none => none
    | some details =>
      let share : Nat → ℚ := fun p => (details.lookup p).getD 0
      let rows0 : List (Nat × ℚ) := participants.map fun p => (p, share p)
      let split_rows : List (Nat × ℚ) :=
        if paid_by ∈ participants then rows0 else rows0 ++ [(paid_by, 0)]
      let out : List Balance × List Call :=
        participants.foldl
          (fun acc p =>
            if p != paid_by then
              (consolidate_balances acc.1 group_id paid_by p (share p),
               acc.2 ++ [⟨group_id, paid_by, p, share p⟩])
            else acc)
          (st.balances, [])
      some (details, split_rows, out.2, { st with balances := out.1 })

/-! ## Balance reads -/

/-- `get_group_balances` (the `/api/groups/<id>/balances` GET handler) from
`backend/app.py` (lines 1716-1835), after authentication and membership
checks: the balances query selects the group's rows with `amount > 0`, and
each member's `owes` total sums the selected amounts where the member is the
borrower, while `is_owed` sums those where the member is the lender.  Only
SELECT statements run, so the store is not written.  Returns, per member,
`(member_id, owes, is_owed)`. -/
def get_group_balances (g : Nat) (members : List Nat) (bs : List Balance) :
    List (Nat × ℚ × ℚ) :=
  let visible := bs.filter fun b => b.group_id == g && decide (0 < b.amount)
  members.map fun m =>
    (m,
     ((visible.filter fun b => b.borrower == m).map (·.amount)).sum,
     ((visible.filter fun b => b.lender == m).map (·.amount)).sum)

/-- The spec's description of the `owes` aggregation: the sum of edge amounts
of the group where the member is the borrower (no positivity filter). -/
def owesSum (g m : Nat) (bs : List Balance) : ℚ :=
  ((bs.filter fun b => b.group_id == g && b.borrower == m).map (·.amount)).sum

/-- The spec's description of the `is_owed` aggregation: the sum of edge
amounts of the group where the member is the lender (no positivity filter). -/
def isOwedSum (g m : Nat) (bs : List Balance) : ℚ :=
  ((bs.filter fun b => b.group_id == g && b.lender == m).map (·.amount)).sum

/-! ## Concrete states used to exercise the theorems -/

/-- Group 0 with members 1 and 2 and empty ledgers. -/
def exSt0 : AppState := ⟨[(1, 0), (2, 0)], [], []⟩

/-- Group 0 with members 1 and 2, where member 1 owes member 2 five units. -/
def exStDebt : AppState := ⟨[(1, 0), (2, 0)], [], [⟨0, 2, 1, 5⟩]⟩

/-- A crud-side state where user 1 owes user 2 five units in group 0. -/
def exCrudSt : CrudState := ⟨[], [⟨0, 2, 1, 5⟩]⟩

/-- A consolidation sequence: an expense debt, a larger opposite debt that
flips the edge, a payment against the surviving edge, then a zero-share call
landing on the pair's opposite-direction edge. -/
def exCalls : List Call :=
  [⟨0, 1, 2, 5⟩, ⟨0, 2, 1, 8⟩, ⟨0, 2, 1, -1⟩, ⟨0, 1, 2, 0⟩]

/-- A balance store mixing groups: member 1 owes member 2 five units in group
0, and a group-1 edge that group-0 reads must ignore. -/
def exBs : List Balance := [⟨0, 2, 1, 5⟩, ⟨1, 1, 2, 7⟩]

/-! ## Lemmas about the balance store operations -/

theorem balKey_iff {g l b : Nat} {x : Balance} :
    balKey g l b x = true ↔ x.group_id = g ∧ x.lender = l ∧ x.borrower = b := by
  simp [balKey, and_assoc]

theorem sameKey_symm {x y : Balance} (h : sameKey x y) : sameKey y x := by
  obtain ⟨hg, hd⟩ := h
  refine ⟨hg.symm, ?_⟩
  rcases hd with ⟨h1, h2⟩ | ⟨h1, h2⟩
  · exact Or.inl ⟨h1.symm, h2.symm⟩
  · exact Or.inr ⟨h2.symm, h1.symm⟩

theorem sameKey_same_dir {g l b : Nat} {x y : Balance} (hx : balKey g l b x = true)
    (hy : balKey g l b y = true) : sameKey x y := by
  obtain ⟨hg, hl, hb⟩ := balKey_iff.mp hx
  obtain ⟨hg2, hl2, hb2⟩ := balKey_iff.mp hy
  exact ⟨hg.trans hg2.symm, Or.inl ⟨hl.trans hl2.symm, hb.trans hb2.symm⟩⟩

theorem sameKey_mk_iff {g l b : Nat} {v : ℚ} {x : Balance} :
    sameKey ⟨g, l, b, v⟩ x ↔ (balKey g l b x = true ∨ balKey g b l x = true) := by
  simp only [sameKey, balKey_iff]
  constructor
  · rintro ⟨hg, ⟨h1, h2⟩ | ⟨h1, h2⟩⟩
    · exact Or.inl ⟨hg.symm, h1.symm, h2.symm⟩
    · exact Or.inr ⟨hg.symm, h2.symm, h1.symm⟩
  · rintro (⟨hg, h1, h2⟩ | ⟨hg, h1, h2⟩)
    · exact ⟨hg.symm, Or.inl ⟨h1.symm, h2.symm⟩⟩
    · exact ⟨hg.symm, Or.inr ⟨h2.symm, h1.symm⟩⟩

theorem mem_updateFirst {p : Balance → Bool} {v : ℚ} {y : Balance} :
    ∀ {l : List Balance}, y ∈ updateFirst p v l →
      y ∈ l ∨ ∃ x ∈ l, y = { x with amount := v }
  | [], h => by cases h
  | x :: xs, h => by
    by_cases hp : p x
    · simp only [updateFirst, if_pos hp, List.mem_cons] at h
      rcases h with h | h
      · exact Or.inr ⟨x, List.mem_cons_self x xs, h⟩
      · exact Or.inl (List.mem_cons_of_mem x h)
    · simp only [updateFirst, if_neg hp, List.mem_cons] at h
      rcases h with h | h
      · exact Or.inl (h ▸ List.mem_cons_self x xs)
      · rcases mem_updateFirst h with h2 | ⟨z, hz, hy⟩
        · exact Or.inl (List.mem_cons_of_mem x h2)
        · exact Or.inr ⟨z, List.mem_cons_of_mem x hz, hy⟩

theorem pairwise_updateFirst {p : Balance → Bool} {v : ℚ} :
    ∀ {l : List Balance}, (l.Pairwise fun a b => ¬ sameKey a b) →
      (updateFirst p v l).Pairwise fun a b => ¬ sameKey a b
  | [], _ => List.Pairwise.nil
  | x :: xs, h => by
    rw [List.pairwise_cons] at h
    by_cases hp : p x
    · rw [updateFirst, if_pos hp, List.pairwise_cons]
      exact ⟨fun y hy hk => h.1 y hy hk, h.2⟩
    · rw [updateFirst, if_neg hp, List.pairwise_cons]
      refine ⟨fun y hy hk => ?_, pairwise_updateFirst h.2⟩
      rcases mem_updateFirst hy with h2 | ⟨z, hz, hyz⟩
      · exact h.1 y h2 hk
      · refine h.1 z hz ?_
        rw [hyz] at hk
        exact hk

theorem findBal_updateFirst {g l b : Nat} {v : ℚ} {e : Balance} :
    ∀ {bs : List Balance}, findBal bs g l b = some e →
      findBal (updateFirst (balKey g l b) v bs) g l b = some { e with amount := v }
  | [], h => by cases h
  | x :: xs, h => by
    by_cases hp : balKey g l b x
    · rw [findBal, List.find?_cons_of_pos _ hp, Option.some_inj] at h
      rw [updateFirst, if_pos hp, findBal, List.find?_cons_of_pos _ (by exact hp), h]
    · rw [findBal, List.find?_cons_of_neg _ hp] at h
      rw [updateFirst, if_neg hp, findBal, List.find?_cons_of_neg _ hp]
      exact findBal_updateFirst h

theorem eraseP_not_sameKey {p : Balance → Bool} {e : Balance}
    (himp : ∀ x, p x = true → sameKey e x) :
    ∀ {l : List Balance}, (l.Pairwise fun a b => ¬ sameKey a b) →
      l.find? p = some e → ∀ x ∈ l.eraseP p, ¬ sameKey e x
  | [], _, hf => by cases hf
  | a :: t, hpw, hf => by
    rw [List.pairwise_cons] at hpw
    by_cases hpa : p a
    · rw [List.find?_cons_of_pos _ hpa, Option.some_inj] at hf
      rw [List.eraseP_cons, hpa, cond_true]
      exact fun x hx => hf ▸ hpw.1 x hx
    · rw [List.find?_cons_of_neg _ hpa] at hf
      have hpa2 : p a = false := by simpa using hpa
      rw [List.eraseP_cons, hpa2, cond_false]
      intro x hx
      rcases List.mem_cons.mp hx with rfl | hx2
      · exact fun hk => hpw.1 e (List.mem_of_find?_eq_some hf) (sameKey_symm hk)
      · exact eraseP_not_sameKey himp hpw.2 hf x hx2

theorem consolidate_pairwise {bs : List Balance} {g L B : Nat} {a : ℚ}
    (hpw : bs.Pairwise fun x y => ¬ sameKey x y) :
    (consolidate_balances bs g L B a).Pairwise fun x y => ¬ sameKey x y := by
  unfold consolidate_balances
  cases h1 : findBal bs g L B with
  | some e =>
    dsimp only
    split
    · exact List.Pairwise.sublist (List.eraseP_sublist bs) hpw
    · exact pairwise_updateFirst hpw
  | none =>
    cases h2 : findBal bs g B L with
    | some e =>
      dsimp only
      have hsub : (List.eraseP (balKey g B L) bs).Sublist bs := List.eraseP_sublist bs
      have hpw1 := List.Pairwise.sublist hsub hpw
      split
      · split
        · rw [List.pairwise_append]
          refine ⟨hpw1, List.pairwise_singleton _ _, fun x hx y hy hk => ?_⟩
          rw [List.mem_singleton] at hy
          subst hy
          have hk2 := sameKey_mk_iff.mp (sameKey_symm hk)
          rcases hk2 with hk2 | hk2
          · exact (List.find?_eq_none.mp h1 x (hsub.subset hx)) hk2
          · have he : balKey g B L e = true := List.find?_some h2
            have hnot := eraseP_not_sameKey
              (fun z hz => sameKey_same_dir he hz) hpw h2 x hx
            exact hnot (sameKey_same_dir he hk2)
        · exact hpw1
      · exact pairwise_updateFirst hpw
    | none =>
      dsimp only
      rw [List.pairwise_append]
      refine ⟨hpw, List.pairwise_singleton _ _, fun x hx y hy hk => ?_⟩
      rw [List.mem_singleton] at hy
      subst hy
      rcases sameKey_mk_iff.mp (sameKey_symm hk) with hk2 | hk2
      · exact (List.find?_eq_none.mp h1 x hx) hk2
      · exact (List.find?_eq_none.mp h2 x hx) hk2

theorem consolidate_pos {bs : List Balance} {g L B : Nat} {a : ℚ}
    (hpos : ∀ x ∈ bs, 0 < x.amount)
    (hok : 0 < a ∨ (findBal bs g L B).isSome = true ∨
      (findBal bs g B L).isSome = true) :
    ∀ x ∈ consolidate_balances bs g L B a, 0 < x.amount := by
  unfold consolidate_balances
  cases h1 : findBal bs g L B with
  | some e =>
    dsimp only
    split
    · exact fun x hx => hpos x ((List.eraseP_sublist bs).subset hx)
    · intro x hx
      rcases mem_updateFirst hx with hx2 | ⟨z, _, rfl⟩
      · exact hpos x hx2
      · dsimp only
        linarith [lt_of_not_le (by assumption : ¬ e.amount + a ≤ 0)]
  | none =>
    cases h2 : findBal bs g B L with
    | some e =>
      dsimp only
      split
      · split
        · intro x hx
          rcases List.mem_append.mp hx with hx2 | hx2
          · exact hpos x ((List.eraseP_sublist bs).subset hx2)
          · rw [List.mem_singleton] at hx2
            subst hx2
            assumption
        · exact fun x hx => hpos x ((List.eraseP_sublist bs).subset hx)
      · intro x hx
        rcases mem_updateFirst hx with hx2 | ⟨z, _, rfl⟩
        · exact hpos x hx2
        · dsimp only
          linarith [lt_of_not_le (by assumption : ¬ a ≥ e.amount)]
    | none =>
      dsimp only
      intro x hx
      rcases List.mem_append.mp hx with hx2 | hx2
      · exact hpos x hx2
      · rw [List.mem_singleton] at hx2
        subst hx2
        rcases hok with hok | hok | hok
        · exact hok
        · rw [h1] at hok
          cases hok
        · rw [h2] at hok
          cases hok


theorem sameKey_opp_dir {g l b : Nat} {x y : Balance} (hx : balKey g l b x = true)
    (hy : balKey g b l y = true) : sameKey x y := by
  obtain ⟨hg, hl, hb⟩ := balKey_iff.mp hx
  obtain ⟨hg2, hl2, hb2⟩ := balKey_iff.mp hy
  exact ⟨hg.trans hg2.symm, Or.inr ⟨hl.trans hb2.symm, hb.trans hl2.symm⟩⟩

theorem foldl_pairwise :
    ∀ (cs : List Call) (bs : List Balance),
      (bs.Pairwise fun x y => ¬ sameKey x y) →
      ((cs.foldl applyCall bs).Pairwise fun x y => ¬ sameKey x y)
  | [], _, h => h
  | _ :: cs, _, h => foldl_pairwise cs _ (consolidate_pairwise h)

theorem foldl_pos :
    ∀ (cs : List Call) (bs : List Balance), (∀ x ∈ bs, 0 < x.amount) →
      GoodSeq bs cs → ∀ x ∈ cs.foldl applyCall bs, 0 < x.amount
  | [], _, h, _ => h
  | _ :: cs, _, h, hg => foldl_pos cs _ (consolidate_pos h hg.1) hg.2

/-- After an existing same-direction row is consumed by a delta that takes it
to zero or below, no row for the pair remains in either direction. -/
theorem consolidate_deletes_pair {bs : List Balance} {g L B : Nat} {a : ℚ}
    {e : Balance} (hpw : bs.Pairwise fun x y => ¬ sameKey x y)
    (he : findBal bs g L B = some e) (hle : e.amount + a ≤ 0) :
    findBal (consolidate_balances bs g L B a) g L B = none ∧
      findBal (consolidate_balances bs g L B a) g B L = none := by
  have heKey : balKey g L B e = true := List.find?_some he
  have hres : consolidate_balances bs g L B a =
      List.eraseP (balKey g L B) bs := by
    unfold consolidate_balances
    rw [he]
    dsimp only
    rw [if_pos hle]
  have hnot := eraseP_not_sameKey (fun z hz => sameKey_same_dir heKey hz) hpw he
  constructor
  · rw [hres]
    exact List.find?_eq_none.mpr fun x hx hk =>
      hnot x hx (sameKey_same_dir heKey hk)
  · rw [hres]
    exact List.find?_eq_none.mpr fun x hx hk =>
      hnot x hx (sameKey_opp_dir heKey hk)

/-! ## Lemmas about `crud.py` -/

theorem addTo_sum : ∀ (l : List (Nat × ℚ)) (k : Nat) (v : ℚ),
    ((addTo l k v).map Prod.snd).sum = (l.map Prod.snd).sum + v
  | [], k, v => by simp [addTo]
  | (k1, v1) :: t, k, v => by
    by_cases h : k1 = k
    · simp only [addTo, if_pos h, List.map_cons, List.sum_cons]
      ring
    · simp only [addTo, if_neg h, List.map_cons, List.sum_cons, addTo_sum t k v]
      ring

theorem net_fold_sum :
    ∀ (bs : List Balance) (net : List (Nat × ℚ)),
      ((bs.foldl
          (fun net b => addTo (addTo net b.lender b.amount) b.borrower (-b.amount))
          net).map Prod.snd).sum = (net.map Prod.snd).sum
  | [], _ => rfl
  | b :: t, net => by
    rw [List.foldl_cons, net_fold_sum t _, addTo_sum, addTo_sum]
    ring

/-! ## Lemmas about the split computation -/

theorem distribute_sum :
    ∀ (ids : List Nat) (base : ℤ) (e : Nat),
      ((distribute ids base e).map Prod.snd).sum =
        (ids.length : ℤ) * base + (min e ids.length : ℕ)
  | [], base, e => by simp [distribute]
  | i :: t, base, 0 => by
    simp only [distribute, List.map_cons, List.sum_cons, distribute_sum t base 0,
      List.length_cons, Nat.zero_min, Nat.cast_zero]
    push_cast
    ring
  | i :: t, base, e + 1 => by
    simp only [distribute, List.map_cons, List.sum_cons, distribute_sum t base e,
      List.length_cons, Nat.succ_min_succ]
    push_cast
    ring

theorem sum_snd_filterMap (f : SplitConfigEntry → Option ℤ) :
    ∀ l : List SplitConfigEntry,
      ((l.filterMap fun m => (f m).map fun v => (m.user_id, v)).map Prod.snd).sum =
        (l.filterMap f).sum
  | [] => rfl
  | m :: t => by
    cases h : f m <;>
      simp [List.filterMap_cons, h, sum_snd_filterMap f t]

theorem compute_custom_splits_sum {total : ℤ} {members : List SplitConfigEntry}
    {shares : List (Nat × ℤ)}
    (h : compute_custom_splits total members = .ok shares) :
    (shares.map Prod.snd).sum = total := by
  unfold compute_custom_splits at h
  split at h
  · cases h
  · split at h
    · cases h
    · split at h
      · cases h
      · split at h
        · cases h
        · split at h
          · cases h
          · dsimp only at h
            split at h
            · cases h
            · split at h
              · cases h
              · split at h
                · split at h
                  · cases h
                  · rw [Except.ok.injEq] at h
                    subst h
                    rw [List.map_append, List.sum_append,
                      sum_snd_filterMap fixedVal, sum_snd_filterMap (pctShare total)]
                    have hrem : ¬ total - (members.filterMap fixedVal).sum -
                        (members.filterMap (pctShare total)).sum ≠ 0 := by assumption
                    omega
                · rw [Except.ok.injEq] at h
                  subst h
                  have hne : ¬ (((members.filter isRemainder).map
                      (·.user_id)).mergeSort (· ≤ ·)).isEmpty = true := by assumption
                  have hfp : ¬ total < (members.filterMap fixedVal).sum +
                      (members.filterMap (pctShare total)).sum := by assumption
                  set ids := ((members.filter isRemainder).map
                    (·.user_id)).mergeSort (· ≤ ·) with hids
                  set remaining : ℤ := total - (members.filterMap fixedVal).sum -
                    (members.filterMap (pctShare total)).sum with hremdef
                  have hn : ids.length ≠ 0 := by
                    intro h0
                    rw [List.isEmpty_iff] at hne
                    exact hne (List.length_eq_zero.mp h0)
                  have hnpos : (0 : ℤ) < (ids.length : ℤ) := by
                    exact_mod_cast Nat.pos_of_ne_zero hn
                  have hrem_nonneg : 0 ≤ remaining := by omega
                  have hmod_nonneg : 0 ≤ remaining % (ids.length : ℤ) :=
                    Int.emod_nonneg remaining (by exact_mod_cast hn)
                  have hmod_lt : remaining % (ids.length : ℤ) < (ids.length : ℤ) :=
                    Int.emod_lt_of_pos remaining hnpos
                  have hextra_le : (remaining % (ids.length : ℤ)).toNat ≤ ids.length := by
                    omega
                  rw [List.map_append, List.sum_append, List.map_append, List.sum_append,
                    sum_snd_filterMap fixedVal, sum_snd_filterMap (pctShare total),
                    distribute_sum]
                  rw [min_eq_left hextra_le, Int.toNat_of_nonneg hmod_nonneg]
                  have hdm := Int.ediv_add_emod remaining (ids.length : ℤ)
                  omega

/-! ## Lemmas about `add_expense` -/

theorem add_expense_accepts_shape
    {st : AppState} {requester group_id paid_by : Nat} {amount : ℚ}
    {participants : List Nat} {split_details : List (Nat × ℚ)}
    {split_method : SplitMethod} {split_config : List SplitConfigEntry}
    {out : List (Nat × ℚ) × List (Nat × ℚ) × List Call × AppState}
    (h : add_expense st requester group_id paid_by amount participants split_details
        split_method split_config = some out)
    (hm : split_method ≠ .custom) :
    split_details.length = participants.length ∧
      |(split_details.map Prod.snd).sum - amount| ≤ 1/100 ∧ out.1 = split_details := by
  unfold add_expense at h
  split at h
  · cases h
  · split at h
    · cases h
    · split at h
      · cases h
      · split at h
        · cases h
        · split at h
          · cases h
          · dsimp only at h
            by_cases hcond : split_details.length = participants.length ∧
                |(split_details.map Prod.snd).sum - amount| ≤ 1/100
            · cases split_method with
              | custom => exact absurd rfl hm
              | equal =>
                rw [if_pos hcond] at h
                dsimp only at h
                rw [Option.some.injEq] at h
                exact ⟨hcond.1, hcond.2, by rw [← h]⟩
              | percentage =>
                rw [if_pos hcond] at h
                dsimp only at h
                rw [Option.some.injEq] at h
                exact ⟨hcond.1, hcond.2, by rw [← h]⟩
              | exact =>
                rw [if_pos hcond] at h
                dsimp only at h
                rw [Option.some.injEq] at h
                exact ⟨hcond.1, hcond.2, by rw [← h]⟩
            · cases split_method with
              | custom => exact absurd rfl hm
              | equal =>
                rw [if_neg hcond] at h
                exact Option.noConfusion h
              | percentage =>
                rw [if_neg hcond] at h
                exact Option.noConfusion h
              | exact =>
                rw [if_neg hcond] at h
                exact Option.noConfusion h

theorem foldl_call_trace (g pb : Nat) (share : Nat → ℚ) :
    ∀ (parts : List Nat) (bs : List Balance) (acc : List Call),
      (parts.foldl
        (fun acc2 p =>
          if p != pb then
            (consolidate_balances acc2.1 g pb p (share p),
             acc2.2 ++ [⟨g, pb, p, share p⟩])
          else acc2)
        (bs, acc)).2
      = acc ++ (parts.filter fun p => p != pb).map fun p => ⟨g, pb, p, share p⟩
  | [], bs, acc => by simp
  | p :: t, bs, acc => by
    by_cases hp : (p != pb) = true
    · rw [List.foldl_cons, if_pos hp, foldl_call_trace g pb share t _ _,
        List.filter_cons, if_pos hp, List.map_cons]
      simp
    · rw [List.foldl_cons, if_neg hp, foldl_call_trace g pb share t _ _,
        List.filter_cons, if_neg hp]

/-! ## Lemmas about `get_group_balances` -/

theorem sum_filter_pos (g : Nat) (q : Balance → Bool) :
    ∀ (bs : List Balance), (∀ b ∈ bs, b.group_id = g → 0 < b.amount) →
      ((bs.filter fun b => q b && (b.group_id == g && decide (0 < b.amount))).map
          (·.amount)).sum
        = ((bs.filter fun b => b.group_id == g && q b).map (·.amount)).sum
  | [], _ => rfl
  | b :: t, hpos => by
    have ht := fun x hx => hpos x (List.mem_cons_of_mem b hx)
    by_cases hg : b.group_id = g
    · have hb : 0 < b.amount := hpos b (List.mem_cons_self b t) hg
      by_cases hq : q b = true
      · simp [List.filter_cons, hg, hb, hq, sum_filter_pos g q t ht]
      · simp [List.filter_cons, hg, hb, hq, sum_filter_pos g q t ht]
    · simp [List.filter_cons, hg, sum_filter_pos g q t ht]

/-! ## Claim theorems -/

/-- C1 (amended): starting from the empty store, after any sequence of
`consolidate_balances` calls in which every call either carries a strictly
positive delta or finds an existing edge for the pair in either direction, at
most one balance edge exists per group and unordered member pair, and every
stored amount is strictly positive.  (Over arbitrary call sequences the claim
fails, because the no-edge branch inserts nonpositive deltas verbatim; see the
counterexample.) -/
theorem C1_single_edge_invariant (cs : List Call) (h : GoodSeq [] cs) :
    StoreInv (runCalls cs) :=
  ⟨foldl_pos cs [] (fun x hx => absurd hx (List.not_mem_nil x)) h,
   foldl_pairwise cs [] List.Pairwise.nil⟩

/-- C1 witness: a concrete good sequence (expense, flipping counter-expense,
partial payment, and a zero delta against the pair's opposite-direction edge)
whose resulting store satisfies the invariant. -/
theorem C1_single_edge_invariant_witness :
    GoodSeq [] exCalls ∧ StoreInv (runCalls exCalls) := by
  have hg : GoodSeq [] exCalls := by
    norm_num [GoodSeq, exCalls, applyCall, consolidate_balances, findBal, balKey,
      updateFirst]
  exact ⟨hg, C1_single_edge_invariant exCalls hg⟩

/-- C1 counterexample: a single `consolidate_balances` call with delta 0 on
the empty store stores a zero-amount edge, so the strict-positivity half of
the invariant fails for that call sequence. -/
theorem C1_counterexample :
    runCalls [⟨0, 1, 2, 0⟩] = [⟨0, 1, 2, 0⟩] ∧
      ¬ StoreInv (runCalls [⟨0, 1, 2, 0⟩]) := by
  have h : runCalls [⟨0, 1, 2, 0⟩] = [⟨0, 1, 2, 0⟩] := by
    simp [runCalls, applyCall, consolidate_balances, findBal]
  refine ⟨h, fun hinv => ?_⟩
  rw [h] at hinv
  have h0 := hinv.1 ⟨0, 1, 2, 0⟩ (List.mem_singleton_self _)
  simp at h0

/-- C3 (amended): when no edge exists for the pair in either direction,
`consolidate_balances` appends the edge `(lender_id, borrower_id, delta)`
unconditionally — also when the delta is zero (a zero edge is stored) or
negative (a negative-amount edge in the requested direction, not a positive
reverse edge).  The claimed `delta > 0` case agrees with this; the claimed
`delta = 0` no-op and `delta < 0` reverse edge do not. -/
theorem C3_no_edge_insert (bs : List Balance) (g L B : Nat) (a : ℚ)
    (h1 : findBal bs g L B = none) (h2 : findBal bs g B L = none) :
    consolidate_balances bs g L B a = bs ++ [⟨g, L, B, a⟩] := by
  unfold consolidate_balances
  rw [h1, h2]

/-- C3 witness: on the empty store a positive delta creates exactly the
requested edge. -/
theorem C3_no_edge_insert_witness :
    findBal [] 0 1 2 = none ∧ findBal [] 0 2 1 = none ∧
      consolidate_balances [] 0 1 2 7 = [⟨0, 1, 2, 7⟩] := by
  refine ⟨rfl, rfl, ?_⟩
  simpa using C3_no_edge_insert [] 0 1 2 7 rfl rfl

/-- C3 counterexample: on the empty store, a negative delta stores a
negative-amount edge in the requested direction (not the claimed positive
reverse edge), and a zero delta stores a zero edge (not the claimed no-op). -/
theorem C3_counterexample :
    consolidate_balances [] 0 2 1 (-5) = [⟨0, 2, 1, -5⟩] ∧
      Balance.mk 0 1 2 5 ∉ consolidate_balances [] 0 2 1 (-5) ∧
      consolidate_balances [] 0 2 1 0 = [⟨0, 2, 1, 0⟩] := by
  have h1 : consolidate_balances [] 0 2 1 (-5) = [⟨0, 2, 1, -5⟩] := by
    simp [consolidate_balances, findBal]
  refine ⟨h1, ?_, by simp [consolidate_balances, findBal]⟩
  rw [h1]
  intro hmem
  rw [List.mem_singleton] at hmem
  have := congrArg Balance.lender hmem
  simp at this

/-- C4 (amended): with an existing same-direction edge `e`, the new amount is
`e.amount + delta`; when positive the edge is updated in place, and when zero
or strictly negative the edge is deleted outright — no reversal edge is
created, and no edge remains for the pair in either direction. -/
theorem C4_same_direction (bs : List Balance) (g L B : Nat) (a : ℚ) (e : Balance)
    (hpw : bs.Pairwise fun x y => ¬ sameKey x y)
    (he : findBal bs g L B = some e) :
    (0 < e.amount + a →
      findBal (consolidate_balances bs g L B a) g L B =
        some { e with amount := e.amount + a }) ∧
    (e.amount + a ≤ 0 →
      findBal (consolidate_balances bs g L B a) g L B = none ∧
        findBal (consolidate_balances bs g L B a) g B L = none) := by
  constructor
  · intro hpos2
    unfold consolidate_balances
    rw [he]
    dsimp only
    rw [if_neg (not_le.mpr hpos2)]
    exact findBal_updateFirst he
  · intro hle
    exact consolidate_deletes_pair hpw he hle

/-- C4 witness: on the edge `(0, 1, 2, 5)`, a delta of 3 updates in place to
8, while a delta of -5 deletes the edge without creating a reverse one. -/
theorem C4_same_direction_witness :
    findBal (consolidate_balances [⟨0, 1, 2, 5⟩] 0 1 2 3) 0 1 2 =
        some ⟨0, 1, 2, 8⟩ ∧
      findBal (consolidate_balances [⟨0, 1, 2, 5⟩] 0 1 2 (-5)) 0 1 2 = none ∧
      findBal (consolidate_balances [⟨0, 1, 2, 5⟩] 0 1 2 (-5)) 0 2 1 = none := by
  have hpw : ([⟨0, 1, 2, 5⟩] : List Balance).Pairwise fun x y => ¬ sameKey x y :=
    List.pairwise_singleton _ _
  have hfind : findBal [⟨0, 1, 2, 5⟩] 0 1 2 = some ⟨0, 1, 2, 5⟩ := by
    simp [findBal, balKey]
  refine ⟨?_, ?_, ?_⟩
  · have h := (C4_same_direction _ 0 1 2 3 _ hpw hfind).1 (by norm_num)
    norm_num at h
    exact h
  · exact ((C4_same_direction _ 0 1 2 (-5) _ hpw hfind).2 (by norm_num)).1
  · exact ((C4_same_direction _ 0 1 2 (-5) _ hpw hfind).2 (by norm_num)).2

/-- C4 counterexample: delta -8 against the same-direction edge
`(0, 1, 2, 5)` leaves the store empty; the claimed residual reverse edge
`(0, 2, 1, 3)` is not created. -/
theorem C4_counterexample :
    consolidate_balances [⟨0, 1, 2, 5⟩] 0 1 2 (-8) = [] ∧
      Balance.mk 0 2 1 3 ∉ consolidate_balances [⟨0, 1, 2, 5⟩] 0 1 2 (-8) := by
  have h : consolidate_balances [⟨0, 1, 2, 5⟩] 0 1 2 (-8) = [] := by
    simp [consolidate_balances, findBal, balKey, List.eraseP]
    norm_num
  exact ⟨h, by rw [h]; exact List.not_mem_nil _⟩

/-- C6 (amended): in `consolidate_balances` (used by the `/api/payments`
endpoint), paying exactly the full owed amount (delta equal to minus the
edge's amount) deletes the balance edge for the pair, leaving no edge in
either direction; `crud.record_payment`, however, keeps a zero-amount row
instead of deleting it (see the counterexample). -/
theorem C6_full_payment_deletes (bs : List Balance) (g L B : Nat) (e : Balance)
    (hpw : bs.Pairwise fun x y => ¬ sameKey x y)
    (he : findBal bs g L B = some e) :
    findBal (consolidate_balances bs g L B (-e.amount)) g L B = none ∧
      findBal (consolidate_balances bs g L B (-e.amount)) g B L = none :=
  consolidate_deletes_pair hpw he (by linarith)

/-- C6 witness: paying the full 5 against edge `(0, 2, 1, 5)` through the
consolidation engine removes the pair's edge entirely. -/
theorem C6_full_payment_deletes_witness :
    findBal (consolidate_balances [⟨0, 2, 1, 5⟩] 0 2 1 (-5)) 0 2 1 = none ∧
      findBal (consolidate_balances [⟨0, 2, 1, 5⟩] 0 2 1 (-5)) 0 1 2 = none := by
  have h := C6_full_payment_deletes [⟨0, 2, 1, 5⟩] 0 2 1 ⟨0, 2, 1, 5⟩
    (List.pairwise_singleton _ _) (by simp [findBal, balKey])
  norm_num at h
  exact h

/-- C6 counterexample: `crud.record_payment` of the full owed amount keeps a
zero-amount balance row: the balance is stored as zero, not deleted. -/
theorem C6_counterexample :
    (crud_record_payment exCrudSt 1 2 5).balances = [⟨0, 2, 1, 0⟩] ∧
      Balance.mk 0 2 1 0 ∈ (crud_record_payment exCrudSt 1 2 5).balances := by
  have h : (crud_record_payment exCrudSt 1 2 5).balances = [⟨0, 2, 1, 0⟩] := by
    norm_num [crud_record_payment, exCrudSt, crudKey]
  exact ⟨h, by rw [h]; exact List.mem_singleton_self _⟩

/-- C9: the per-user net balances computed by `crud.get_net_balances` sum to
zero, because each row's amount is added once to its lender's net and
subtracted once from its borrower's net. -/
theorem C9_net_balances_sum_zero (bs : List Balance) :
    ((get_net_balances bs).map Prod.snd).sum = 0 := by
  unfold get_net_balances
  rw [net_fold_sum]
  rfl

/-- C10: when `crud.record_payment` finds a balance with the recipient as
lender and the payer as borrower, it sets the matching rows' amount to
`max(0, existing - payment)` — never negative, overpayment silently clamped to
a kept zero-amount row — while always appending the payment row and never
creating a reverse-direction balance row. -/
theorem C10_crud_payment_clamps (st : CrudState) (paid_by paid_to : Nat) (a : ℚ)
    (row : Balance)
    (h : st.balances.find? (crudKey paid_to paid_by) = some row) :
    (crud_record_payment st paid_by paid_to a).balances =
        (st.balances.map fun b => if crudKey paid_to paid_by b then
          { b with amount := max 0 (row.amount - a) } else b) ∧
      (∀ b ∈ (crud_record_payment st paid_by paid_to a).balances,
        crudKey paid_to paid_by b = true →
          b.amount = max 0 (row.amount - a) ∧ 0 ≤ b.amount) ∧
      (crud_record_payment st paid_by paid_to a).balances.countP
          (crudKey paid_by paid_to) =
        st.balances.countP (crudKey paid_by paid_to) ∧
      (crud_record_payment st paid_by paid_to a).payments =
        st.payments ++ [⟨paid_by, paid_to, a⟩] := by
  have hres : crud_record_payment st paid_by paid_to a =
      { payments := st.payments ++ [⟨paid_by, paid_to, a⟩],
        balances := st.balances.map fun b => if crudKey paid_to paid_by b then
          { b with amount := max 0 (row.amount - a) } else b } := by
    unfold crud_record_payment
    dsimp only
    rw [h]
  refine ⟨by rw [hres], ?_, ?_, by rw [hres]⟩
  · intro b hb hkey
    rw [hres] at hb
    dsimp only at hb
    rcases List.mem_map.mp hb with ⟨x, _, rfl⟩
    by_cases hk : crudKey paid_to paid_by x
    · rw [if_pos hk]
      exact ⟨rfl, le_max_left _ _⟩
    · rw [if_neg hk] at hkey
      exact absurd hkey hk
  · rw [hres]
    dsimp only
    rw [List.countP_map]
    apply List.countP_congr
    intro x _
    by_cases hk : crudKey paid_to paid_by x
    · simp only [Function.comp_apply, if_pos hk]
      exact Iff.rfl
    · simp only [Function.comp_apply, if_neg hk]

/-- C10 witness: overpaying a debt of 5 by 7 clamps the stored row to zero
(still present) and records the payment. -/
theorem C10_crud_payment_clamps_witness :
    (crud_record_payment exCrudSt 1 2 7).balances = [⟨0, 2, 1, 0⟩] ∧
      (crud_record_payment exCrudSt 1 2 7).payments = [⟨1, 2, 7⟩] := by
  have h := C10_crud_payment_clamps exCrudSt 1 2 7 ⟨0, 2, 1, 5⟩
    (by simp [exCrudSt, crudKey])
  refine ⟨?_, ?_⟩
  · rw [h.1]
    norm_num [exCrudSt, crudKey]
  · rw [h.2.2.2]
    simp [exCrudSt]

/-- C5: the payment endpoint first checks, read-only, that an edge exists with
the recipient as lender and the payer as borrower covering the payment; with
the earlier request validations passing, a missing edge yields
`noExistingDebt` and an insufficient edge yields `exceedsDebt`; and in every
failure case the returned state is the unmodified input state (no payment or
balance row is touched). -/
theorem C5_record_payment_guard (st : AppState) (g pb pt : Nat) (a : ℚ)
    (d : String) :
    ((app_record_payment st g pb pt a d).1.isSome = true →
      (app_record_payment st g pb pt a d).2 = st) ∧
    (0 < a → d ≠ "" → pb ≠ pt →
      isMember st pb g = true → isMember st pt g = true →
      (findBal st.balances g pt pb = none →
        (app_record_payment st g pb pt a d).1 = some PaymentError.noExistingDebt) ∧
      (∀ row, findBal st.balances g pt pb = some row → 0 < row.amount →
        row.amount < a →
        (app_record_payment st g pb pt a d).1 = some PaymentError.exceedsDebt)) := by
  constructor
  · unfold app_record_payment
    split_ifs with h1 h2 h3 h4
    · exact fun _ => rfl
    · exact fun _ => rfl
    · exact fun _ => rfl
    · exact fun _ => rfl
    · cases hf : findBal st.balances g pt pb with
      | none => exact fun _ => rfl
      | some row =>
        dsimp only
        split_ifs with h5 h6
        · exact fun _ => rfl
        · exact fun _ => rfl
        · intro hs
          simp at hs
  · intro ha hd hne hm1 hm2
    have hna : ¬ a ≤ 0 := not_le.mpr ha
    have hbeq : ¬ ((pb == pt) = true) := by simp [hne]
    have hmem : ¬ ((!(isMember st pb g && isMember st pt g)) = true) := by
      simp [hm1, hm2]
    constructor
    · intro hf
      unfold app_record_payment
      rw [if_neg hna, if_neg hd, if_neg hbeq, if_neg hmem, hf]
    · intro row hf hrow hlt
      unfold app_record_payment
      rw [if_neg hna, if_neg hd, if_neg hbeq, if_neg hmem, hf]
      dsimp only
      rw [if_neg (not_le.mpr hrow), if_pos (by linarith : a > row.amount)]

/-- C5 witness: with no debt recorded, paying 1 → 2 fails with
`noExistingDebt` and leaves the state unchanged; with a debt of 5, paying 9
fails with `exceedsDebt` and leaves the state unchanged. -/
theorem C5_record_payment_guard_witness :
    (app_record_payment exSt0 0 1 2 3 "rent").1 = some PaymentError.noExistingDebt ∧
      (app_record_payment exSt0 0 1 2 3 "rent").2 = exSt0 ∧
      (app_record_payment exStDebt 0 1 2 9 "rent").1 = some PaymentError.exceedsDebt ∧
      (app_record_payment exStDebt 0 1 2 9 "rent").2 = exStDebt := by
  have h1 := C5_record_payment_guard exSt0 0 1 2 3 "rent"
  have h2 := C5_record_payment_guard exStDebt 0 1 2 9 "rent"
  have k1 : (app_record_payment exSt0 0 1 2 3 "rent").1 =
      some PaymentError.noExistingDebt :=
    (h1.2 (by norm_num) (by simp) (by decide) (by decide) (by decide)).1
      (by simp [findBal, exSt0])
  have k2 : (app_record_payment exStDebt 0 1 2 9 "rent").1 =
      some PaymentError.exceedsDebt :=
    (h2.2 (by norm_num) (by simp) (by decide) (by decide) (by decide)).2
      ⟨0, 2, 1, 5⟩ (by simp [findBal, balKey, exStDebt]) (by norm_num) (by norm_num)
  exact ⟨k1, h1.1 (by rw [k1]; rfl), k2, h2.1 (by rw [k2]; rfl)⟩

/-- C2 (amended): for a non-custom split method, an accepted expense only
guarantees that the submitted `split_details` values sum to within 0.01 of the
total (the endpoint checks a tolerance, not exact equality); for the custom
method, `compute_custom_splits` (modelled from the spec, as
`backend/splitting.py` is absent) returns cent shares that sum exactly to the
cent total.  Exact dollar-level equality for every method, as claimed, fails:
see the counterexample. -/
theorem C2_split_sum :
    (∀ (st : AppState) (requester group_id paid_by : Nat) (amount : ℚ)
        (participants : List Nat) (split_details : List (Nat × ℚ))
        (split_method : SplitMethod) (split_config : List SplitConfigEntry)
        (out : List (Nat × ℚ) × List (Nat × ℚ) × List Call × AppState),
        split_method ≠ .custom →
        add_expense st requester group_id paid_by amount participants
          split_details split_method split_config = some out →
        |(split_details.map Prod.snd).sum - amount| ≤ 1/100) ∧
    (∀ (total : ℤ) (members : List SplitConfigEntry) (shares : List (Nat × ℤ)),
        compute_custom_splits total members = .ok shares →
        (shares.map Prod.snd).sum = total) :=
  ⟨fun _ _ _ _ _ _ _ _ _ _ hm h => (add_expense_accepts_shape h hm).2.1,
   fun _ _ _ h => compute_custom_splits_sum h⟩

/-- C2 witness: a concrete accepted exact-method expense is within tolerance,
and a concrete custom split over fixed cent amounts sums exactly. -/
theorem C2_split_sum_witness :
    |(([(1, (1 : ℚ)), (2, 1)].map Prod.snd).sum - 2)| ≤ 1/100 ∧
      (([(1, (4 : ℤ)), (2, 6)] : List (Nat × ℤ)).map Prod.snd).sum = 10 := by
  constructor
  · refine C2_split_sum.1 exSt0 1 0 1 2 [1, 2] [(1, 1), (2, 1)] .exact []
      ([(1, 1), (2, 1)], [(1, 1), (2, 1)], [⟨0, 1, 2, 1⟩],
        ⟨[(1, 0), (2, 0)], [], [⟨0, 1, 2, 1⟩]⟩) (by decide) ?_
    simp [add_expense, isMember, exSt0, List.lookup, consolidate_balances,
      findBal, balKey]
    norm_num
    constructor <;> simp [List.lookup]
  · refine C2_split_sum.2 10 [⟨1, .amountCents 4⟩, ⟨2, .amountCents 6⟩]
      [(1, 4), (2, 6)] ?_
    norm_num [compute_custom_splits, fixedVal, pctVal, isRemainder, pctShare,
      List.filterMap_cons, List.filter_cons, List.mergeSort_nil]

/-- C2 counterexample: the exact-method expense with total 2 and submitted
shares 1 and 129/128 (both exactly representable binary floats) is accepted by
the tolerance check (the gap is 1/128 ≤ 0.01), yet the recorded
per-participant shares sum to 257/128 ≠ 2. -/
theorem C2_counterexample :
    add_expense exSt0 1 0 1 2 [1, 2] [(1, 1), (2, 129/128)] .exact [] =
      some ([(1, 1), (2, 129/128)], [(1, 1), (2, 129/128)], [⟨0, 1, 2, 129/128⟩],
        ⟨[(1, 0), (2, 0)], [], [⟨0, 1, 2, 129/128⟩]⟩) ∧
      (([(1, (1 : ℚ)), (2, 129/128)].map Prod.snd).sum ≠ 2) := by
  constructor
  · simp [add_expense, isMember, exSt0, List.lookup, consolidate_balances,
      findBal, balKey]
    have hcond : |(1 : ℚ) + 129 / 128 - 2| ≤ 100⁻¹ := by
      rw [abs_le]
      constructor <;> norm_num
    rw [if_pos hcond]
    simp [List.lookup]
  · norm_num

/-- C7 (amended): on an accepted expense, `consolidate_balances` is called
exactly once for each participant other than the payer, in participant order,
with that participant's looked-up share — including participants whose share
is zero (the code does not skip them, contrary to the claim); the payer never
receives a call, so no self-obligation is created. -/
theorem C7_consolidation_calls
    {st : AppState} {requester group_id paid_by : Nat} {amount : ℚ}
    {participants : List Nat} {split_details : List (Nat × ℚ)}
    {split_method : SplitMethod} {split_config : List SplitConfigEntry}
    {dts rows : List (Nat × ℚ)} {calls : List Call} {st2 : AppState}
    (h : add_expense st requester group_id paid_by amount participants
        split_details split_method split_config = some (dts, rows, calls, st2)) :
    calls = (participants.filter fun p => p != paid_by).map
        (fun p => ⟨group_id, paid_by, p, (dts.lookup p).getD 0⟩) ∧
      ∀ c ∈ calls, c.lender = paid_by ∧ c.borrower ≠ paid_by := by
  unfold add_expense at h
  split at h
  · cases h
  · split at h
    · cases h
    · split at h
      · cases h
      · split at h
        · cases h
        · split at h
          · cases h
          · dsimp only at h
            split at h
            · exact Option.noConfusion h
            · rename_i details heq
              rw [Option.some.injEq, Prod.mk.injEq] at h
              obtain ⟨hdts, h2⟩ := h
              rw [Prod.mk.injEq] at h2
              obtain ⟨hrows, h3⟩ := h2
              rw [Prod.mk.injEq] at h3
              obtain ⟨hcalls, hst⟩ := h3
              subst hdts
              have htr := foldl_call_trace group_id paid_by
                (fun p => (details.lookup p).getD 0) participants st.balances []
              constructor
              · rw [← hcalls, htr, List.nil_append]
              · intro c hc
                rw [← hcalls, htr, List.nil_append] at hc
                rcases List.mem_map.mp hc with ⟨p, hp, rfl⟩
                have hpb : (p != paid_by) = true := (List.mem_filter.mp hp).2
                refine ⟨rfl, ?_⟩
                simpa using hpb

/-- C7 witness: on an accepted two-participant expense paid by participant 1,
the consolidation-call trace is exactly the one call for participant 2. -/
theorem C7_consolidation_calls_witness :
    [Call.mk 0 1 2 0] =
      (([1, 2] : List Nat).filter fun p => p != 1).map
        (fun p => ⟨0, 1, p, (([(1, (2 : ℚ)), (2, 0)].lookup p)).getD 0⟩) := by
  have h : add_expense exSt0 1 0 1 2 [1, 2] [(1, 2), (2, 0)] .exact [] =
      some ([(1, 2), (2, 0)], [(1, 2), (2, 0)], [⟨0, 1, 2, 0⟩],
        ⟨[(1, 0), (2, 0)], [], [⟨0, 1, 2, 0⟩]⟩) := by
    simp [add_expense, isMember, exSt0, List.lookup, consolidate_balances,
      findBal, balKey]
  exact (C7_consolidation_calls h).1

/-- C7 counterexample: an accepted expense with a zero share for participant 2
still triggers a consolidation call for participant 2 with amount 0 (creating
a zero-amount edge), contradicting the claim that only nonzero shares produce
`apply_delta` calls. -/
theorem C7_counterexample :
    add_expense exSt0 1 0 1 2 [1, 2] [(1, 2), (2, 0)] .exact [] =
      some ([(1, 2), (2, 0)], [(1, 2), (2, 0)], [⟨0, 1, 2, 0⟩],
        ⟨[(1, 0), (2, 0)], [], [⟨0, 1, 2, 0⟩]⟩) ∧
      Call.mk 0 1 2 0 ∈ [Call.mk 0 1 2 0] ∧ (0 : ℚ) ≠ 1 := by
  refine ⟨?_, List.mem_singleton_self _, by norm_num⟩
  simp [add_expense, isMember, exSt0, List.lookup, consolidate_balances,
    findBal, balKey]

/-- C8: `get_group_balances` runs only SELECT statements (in the embedding it
is a function of the store that returns only the report), and on any store
satisfying the documented positivity invariant for the group it reports, per
member, `owes` equal to the sum of the group's edge amounts where the member
is the borrower and `is_owed` equal to the sum where the member is the
lender. -/
theorem C8_group_balances (g : Nat) (members : List Nat) (bs : List Balance)
    (hpos : ∀ b ∈ bs, b.group_id = g → 0 < b.amount) :
    get_group_balances g members bs =
      members.map fun m => (m, owesSum g m bs, isOwedSum g m bs) := by
  unfold get_group_balances owesSum isOwedSum
  apply List.map_congr_left
  intro m _
  dsimp only
  rw [List.filter_filter, List.filter_filter,
    sum_filter_pos g (fun b => b.borrower == m) bs hpos,
    sum_filter_pos g (fun b => b.lender == m) bs hpos]

/-- C8 witness: on a store holding a group-0 edge and a group-1 edge, the
group-0 report for members 1 and 2 matches the claimed borrower/lender
sums. -/
theorem C8_group_balances_witness :
    get_group_balances 0 [1, 2] exBs =
      [1, 2].map fun m => (m, owesSum 0 m exBs, isOwedSum 0 m exBs) := by
  refine C8_group_balances 0 [1, 2] exBs ?_
  intro b hb
  simp only [exBs, List.mem_cons, List.mem_singleton] at hb
  rcases hb with rfl | rfl | h
  · intro _
    norm_num
  · intro hg
    simp at hg
  · cases h
